import Mathlib

/-!
# Verification of the response-capture subsystem of vscode-restclient

Shallow embedding of the three excerpted source files:

* `src/utils/userDataManager.ts` — the runtime shared variable store
  (`getRuntimeSharedVariables`, `setRuntimeSharedVariables`,
  `updateRuntimeSharedVariables` with its promise write chain);
* `src/controllers/requestController.ts` — the capture orchestrator
  (`applySetMetadata`);
* `src/providers/httpCompletionItemProvider.ts` — the completion engine
  (`provideCompletionItems`, `provideSetCompletionItems`).

JavaScript objects used as string→string dictionaries are modelled as
association lists (`VarMap`): spread-merge `\x7b...a, ...b\x7d` updates keys of
`a` in place and appends fresh keys of `b` in insertion order, which is
exactly what `setKey`/`mergeMaps` below do.  Promises are modelled by
explicit state passing; a durable write that may fail takes a `Bool`
telling whether the underlying file write succeeds.
-/

namespace RestClient

/-- A JavaScript object used as a `\x7bkey: string\x7d` dictionary, as an
insertion-ordered association list. -/
abbrev VarMap := List (String × String)

/-- JS property assignment `m[k] = v`: updates the value in place when the
key exists, otherwise appends the key at the end (JS insertion order). -/
def setKey : VarMap → String → String → VarMap
  | [], k, v => [(k, v)]
  | (k', v') :: rest, k, v =>
    if k' = k then (k', v) :: rest else (k', v') :: setKey rest k v

/-- JS object spread `\x7b...base, ...upd\x7d`: every key of `upd` is assigned
on top of `base`, in the insertion order of `upd`. -/
def mergeMaps (base upd : VarMap) : VarMap :=
  upd.foldl (fun m kv => setKey m kv.1 kv.2) base

/-- Assoc-list lookup, the value `m[k]` of the modelled JS object. -/
def lookupKey : VarMap → String → Option String
  | [], _ => none
  | (k', v') :: rest, k => if k' = k then some v' else lookupKey rest k

/-- The mutable static state of `UserDataManager` that the runtime shared
variable functions touch: the in-memory cache
(`runtimeSharedVariablesCache`, `undefined` ↦ `none`) and the contents of
the durable file `runtime-shared.json`.  The promise write queue is
modelled by executing queued updates sequentially (see `chainExec`). -/
structure StoreState where
  cache : Option VarMap
  file : VarMap
deriving DecidableEq, Repr

/-- Model of `UserDataManager.getRuntimeSharedVariables` (userDataManager.ts:108-120):
returns the cached map if the cache is set; otherwise loads the file,
populates the cache with a copy, and returns a copy.  Value-level model;
the object-identity aspects are modelled separately by `HeapStore` below. -/
def getRuntimeSharedVariables (s : StoreState) : VarMap × StoreState :=
  match s.cache with
  | some c => (c, s)
  | none => (s.file, { s with cache := some s.file })

/-- Model of `UserDataManager.setRuntimeSharedVariables` (userDataManager.ts:122-125):
assigns the cache to a copy of `vars` first, then serializes `vars` to the
file; `writeOk` tells whether that durable write succeeds.  Note the cache
assignment happens before the write is attempted. -/
def setRuntimeSharedVariables (s : StoreState) (vars : VarMap) (writeOk : Bool) :
    StoreState :=
  { cache := some vars, file := if writeOk then vars else s.file }

/-- One queued body of `UserDataManager.updateRuntimeSharedVariables`
(userDataManager.ts:132-139): deserialize the file, apply `updater`, set the
cache to a copy of the result, then serialize the result to the file
(`writeOk` tells whether that durable write succeeds). -/
def updateRuntimeSharedVariables (s : StoreState) (updater : VarMap → VarMap)
    (writeOk : Bool) : StoreState :=
  let updated := updater s.file
  { cache := some updated, file := if writeOk then updated else s.file }

/-- One `updateRuntimeSharedVariables` call queued on the write chain: its
updater function and whether its durable write will succeed. -/
structure UpdateCall where
  updater : VarMap → VarMap
  writeOk : Bool

/-- The promise write chain of `updateRuntimeSharedVariables`
(userDataManager.ts:130-141): each call appends its body after the current
tail with `.catch(() => undefined).then(...)`, so the bodies run
sequentially in call-issue order regardless of individual failures. -/
def chainExec (s : StoreState) : List UpdateCall → StoreState
  | [] => s
  | c :: rest => chainExec (updateRuntimeSharedVariables s c.updater c.writeOk) rest

/-- The file contents each queued call deserializes at the start of its body
(the map its read-modify-write step observes), in call-issue order. -/
def observedInputs (s : StoreState) : List UpdateCall → List VarMap
  | [] => []
  | c :: rest =>
    s.file :: observedInputs (updateRuntimeSharedVariables s c.updater c.writeOk) rest

/-! ## JavaScript values and the `String(value ?? '')` coercion -/

mutual
/-- A JavaScript value as it can appear in `resolveResult.value`: the
`undefined`/`null` distinction matters for the `?? ''` coalescing, and the
remaining constructors cover the JSON values a response body can hold.
Numbers are modelled as integers (the float-specific formatting of the host
language plays no role in the claims below).  Element lists and field
lists are their own inductives so recursion over values stays
structural. -/
inductive JSValue where
  | undef
  | null
  | bool (b : Bool)
  | num (n : Int)
  | str (s : String)
  | arr (elems : JSList)
  | obj (fields : JSFields)
deriving Repr

/-- The elements of a JavaScript array value. -/
inductive JSList where
  | nil
  | cons (head : JSValue) (tail : JSList)
deriving Repr

/-- The key/value fields of a JavaScript object value, in insertion
order. -/
inductive JSFields where
  | nil
  | cons (key : String) (value : JSValue) (tail : JSFields)
deriving Repr
end

/-- The `Object.keys` list of an object value, in insertion order. -/
def JSFields.keys : JSFields → List String
  | .nil => []
  | .cons k _ rest => k :: rest.keys

mutual
/-- The host language string conversion `String(v)`: primitives print their
literal text, plain objects print as `[object Object]`, and arrays join
their elements' conversions with commas (`Array.prototype.toString`, with
`null` and `undefined` elements rendering as empty). -/
def jsString : JSValue → String
  | .undef => "undefined"
  | .null => "null"
  | .bool true => "true"
  | .bool false => "false"
  | .num n => toString n
  | .str s => s
  | .arr elems => jsArrayJoin elems
  | .obj _ => "[object Object]"

/-- The `Array.prototype.join(',')` text of the elements' conversions. -/
def jsArrayJoin : JSList → String
  | .nil => ""
  | .cons .undef rest => "" ++ jsArrayJoinRest rest
  | .cons .null rest => "" ++ jsArrayJoinRest rest
  | .cons v rest => jsString v ++ jsArrayJoinRest rest

/-- The `,`-preceded continuation of an array join. -/
def jsArrayJoinRest : JSList → String
  | .nil => ""
  | .cons .undef rest => "," ++ "" ++ jsArrayJoinRest rest
  | .cons .null rest => "," ++ "" ++ jsArrayJoinRest rest
  | .cons v rest => "," ++ jsString v ++ jsArrayJoinRest rest
end

/-- Inside an array join, `null` and `undefined` render as the empty
string; every other element uses `String(v)`. -/
def jsArrayElem : JSValue → String
  | .undef => ""
  | .null => ""
  | v => jsString v

/-- The stored-value coercion at requestController.ts:234,
`String(resolveResult.value ?? '')`: `undefined` and `null` coalesce to
`''` (hence the empty string), every other value goes through the host
string conversion. -/
def coerceSetValue : JSValue → String
  | .undef => ""
  | .null => ""
  | v => jsString v

mutual
/-- Follows the spec's words (§4.2): the "canonical JSON text" of a value,
as `JSON.stringify` would produce it — kept only for comparison against
`coerceSetValue`.  String escaping is elided (the comparison inputs use
none). -/
def canonicalJsonText : JSValue → String
  | .undef => "null"
  | .null => "null"
  | .bool true => "true"
  | .bool false => "false"
  | .num n => toString n
  | .str s => "\"" ++ s ++ "\""
  | .arr elems => "[" ++ canonicalJsonList elems ++ "]"
  | .obj fields => "\x7b" ++ canonicalJsonFields fields ++ "\x7d"

/-- Comma-joined canonical texts of array elements. -/
def canonicalJsonList : JSList → String
  | .nil => ""
  | .cons v .nil => canonicalJsonText v
  | .cons v (.cons v' rest) => canonicalJsonText v ++ "," ++ canonicalJsonList (.cons v' rest)

/-- Comma-joined `"key":value` pairs of object fields. -/
def canonicalJsonFields : JSFields → String
  | .nil => ""
  | .cons k v .nil => "\"" ++ k ++ "\":" ++ canonicalJsonText v
  | .cons k v (.cons k' v' rest) =>
    "\"" ++ k ++ "\":" ++ canonicalJsonText v ++ "," ++ canonicalJsonFields (.cons k' v' rest)
end

/-! ## The capture orchestrator (`RequestController.applySetMetadata`) -/

/-- The `ResolveState`/`ResolveResult` of `resolveResponseVariable`
(models/httpVariableResolveResult.ts): either a successful value or a
failure message.  The resolver itself
(`RequestVariableCacheValueProcessor`) is outside the excerpt, so the
orchestrator is parameterized over it. -/
inductive ResolveResult where
  | success (value : JSValue)
  | failure (message : String)

/-- A parsed `@set` directive: target variable name and source path. -/
structure SetAssignment where
  targetName : String
  sourcePath : String
deriving DecidableEq, Repr

/-- Whitespace inside a line, the `\s` class restricted to the characters a
single document line can hold. -/
def isSpaceChar (c : Char) : Bool := c = ' ' || c = '\t'

/-- First character of the identifier grammar `[A-Za-z_]`. -/
def isIdentStart (c : Char) : Bool := c.isAlpha || c = '_'

/-- The `\w` word-character class `[A-Za-z0-9_]`. -/
def isWordChar (c : Char) : Bool := c.isAlpha || c.isDigit || c = '_'

/-- Modelled from the spec: `Selector.parseSetAssignment` is outside the
excerpted sources.  §4.1: a directive of the form `<name> = <path>` where
`name` matches `[A-Za-z_]\w*` and the remainder after `=`, trimmed of
leading whitespace, is the source path verbatim; anything else is
unparseable. -/
def parseSetAssignment (directive : String) : Option SetAssignment :=
  match directive.toList.dropWhile isSpaceChar with
  | [] => none
  | c :: rest =>
    if isIdentStart c then
      let name := String.mk (c :: rest.takeWhile isWordChar)
      match (rest.dropWhile isWordChar).dropWhile isSpaceChar with
      | '=' :: tail => some ⟨name, String.mk (tail.dropWhile isSpaceChar)⟩
      | _ => none
    else none

/-- Warning at requestController.ts:209-211 for an unparseable directive. -/
def invalidDirectiveMsg (directive : String) : String :=
  "Invalid @set directive \"" ++ directive ++
    "\". Expected format: @set <targetName> = <response.headers.*|response.body.*>"

/-- Warning at requestController.ts:217-219 for a target that is not
predeclared in the `$shared` environment. -/
def notPredeclaredMsg (targetName : String) : String :=
  "@set target \"" ++ targetName ++ "\" is not predeclared in $shared and will be ignored."

/-- Warning at requestController.ts:228-230 for a source path that did not
resolve against the response. -/
def unresolvedMsg (sourcePath targetName message : String) : String :=
  "@set source \"" ++ sourcePath ++ "\" couldn\x27t be resolved for \"" ++
    targetName ++ "\": " ++ message

/-- The directive loop of `applySetMetadata` (requestController.ts:206-235):
parse each directive, gate its target against the predeclared `$shared`
keys (`Object.prototype.hasOwnProperty`), resolve its source path, and on
success assign `updates[targetName] = String(value ?? '')`.  Returns the
accumulated `updates` object and the warnings in emission order. -/
def processDirectives (shared : List String) (resolve : String → ResolveResult) :
    List String → VarMap → VarMap × List String
  | [], updates => (updates, [])
  | d :: rest, updates =>
    match parseSetAssignment d with
    | none =>
      let r := processDirectives shared resolve rest updates
      (r.1, invalidDirectiveMsg d :: r.2)
    | some a =>
      if a.targetName ∈ shared then
        match resolve a.sourcePath with
        | .failure msg =>
          let r := processDirectives shared resolve rest updates
          (r.1, unresolvedMsg a.sourcePath a.targetName msg :: r.2)
        | .success v =>
          processDirectives shared resolve rest (setKey updates a.targetName (coerceSetValue v))
      else
        let r := processDirectives shared resolve rest updates
        (r.1, notPredeclaredMsg a.targetName :: r.2)

/-- A store access made by the orchestrator: a read
(`getRuntimeSharedVariables`), a full-map write
(`setRuntimeSharedVariables`), or a queued read-modify-write
(`updateRuntimeSharedVariables`). -/
inductive StoreOp where
  | read
  | setVars (vars : VarMap)
  | updateVars
deriving DecidableEq, Repr

/-- The outcome of one capture cycle: the store state it leaves behind, the
store accesses it made in order, and the warnings it emitted. -/
structure CaptureOutcome where
  finalState : StoreState
  storeOps : List StoreOp
  warnings : List String
deriving Repr

/-- Model of `RequestController.applySetMetadata` (requestController.ts:188-243).
`directives` is the output of `Selector.parseSetMetadataForRawDirectives`
(outside the excerpt); `shared` is `Object.keys` of the `$shared`
environment; `resolve` is the response-path resolver applied to this
cycle's response; `writeOk` tells whether the cycle's durable write (if
any) succeeds.  If there are no directives the function returns at line
196 before touching the store; otherwise it reads the store once (line
203), runs the directive loop, and — when `updates` is non-empty — calls
`setRuntimeSharedVariables` on the spread-merge of the snapshot it read
and the updates (lines 237-242). -/
def applySetMetadata (directives : List String) (shared : List String)
    (resolve : String → ResolveResult) (writeOk : Bool) (s : StoreState) :
    CaptureOutcome :=
  if directives.isEmpty then ⟨s, [], []⟩
  else
    let rs := getRuntimeSharedVariables s
    let pw := processDirectives shared resolve directives []
    if pw.1.isEmpty then ⟨rs.2, [StoreOp.read], pw.2⟩
    else
      let merged := mergeMaps rs.1 pw.1
      ⟨setRuntimeSharedVariables rs.2 merged writeOk,
        [StoreOp.read, StoreOp.setVars merged], pw.2⟩

/-! ## The completion engine (`HttpCompletionItemProvider`) -/

/-- A completion item as the provider builds it: label, insert text, and
the replacement range as character offsets within the cursor's line
(`Range` on a single line). -/
structure CompletionItem where
  label : String
  insertText : String
  replaceStart : Nat
  replaceEnd : Nat
deriving DecidableEq, Repr

/-- The cached `HttpResponse` for the enclosing request, as the completion
engine consumes it: its header map and raw body text. -/
structure ModelResponse where
  headers : List (String × String)
  body : String
deriving Repr

/-- The comment marker `(?:#|\/\x7b2\x7d)` at the start of a metadata line. -/
def chompMarker : List Char → Option (List Char)
  | '#' :: rest => some rest
  | '/' :: '/' :: rest => some rest
  | _ => none

/-- The optional anchored identifier `([A-Za-z_]\w*)?$`: the remaining
input must be empty or exactly one identifier. -/
def matchIdentToEnd : List Char → Option String
  | [] => some ""
  | c :: rest =>
    if isIdentStart c && rest.all isWordChar then some (String.mk (c :: rest)) else none

/-- The target-context test at httpCompletionItemProvider.ts:70, the regex
match of `beforeCursor` against
`^\s*(?:#|\/\x7b2\x7d)\s*@set\s+([A-Za-z_]\w*)?$`; returns the captured
partial identifier. -/
def matchSetTarget (cs : List Char) : Option String := do
  let cs ← chompMarker (cs.dropWhile isSpaceChar)
  match cs.dropWhile isSpaceChar with
  | '@' :: 's' :: 'e' :: 't' :: c :: rest =>
    if isSpaceChar c then matchIdentToEnd (rest.dropWhile isSpaceChar) else none
  | _ => none

/-- The source-context test at httpCompletionItemProvider.ts:90, the regex
match of `beforeCursor` against
`^\s*(?:#|\/\x7b2\x7d)\s*@set\s+[A-Za-z_]\w*\s*=\s*(.*)$`; returns the
captured partial source path. -/
def matchSetSource (cs : List Char) : Option String := do
  let cs ← chompMarker (cs.dropWhile isSpaceChar)
  match cs.dropWhile isSpaceChar with
  | '@' :: 's' :: 'e' :: 't' :: c :: rest =>
    if isSpaceChar c then
      match rest.dropWhile isSpaceChar with
      | c2 :: rest2 =>
        if isIdentStart c2 then
          match (rest2.dropWhile isWordChar).dropWhile isSpaceChar with
          | '=' :: tail => some (String.mk (tail.dropWhile isSpaceChar))
          | _ => none
        else none
      | [] => none
    else none
  | _ => none

/-- Strip a literal pattern case-insensitively from the front of the input
(the `i` regex flag), returning the remainder. -/
def stripCI : List Char → List Char → Option (List Char)
  | [], rest => some rest
  | p :: ps, c :: rest => if c.toLower = p.toLower then stripCI ps rest else none
  | _ :: _, [] => none

/-- The test `/^response\.headers\.$/i` at line 111. -/
def isHeadersExact (pfx : String) : Bool :=
  stripCI "response.headers.".toList pfx.toList = some []

/-- The capture `/^response\.headers\.(.*)$/i` at line 131: the partial
header name typed after `response.headers.`. -/
def matchHeadersRem (pfx : String) : Option String :=
  (stripCI "response.headers.".toList pfx.toList).map String.mk

/-- The combined tests at line 159, `/^response\.body\.$/i` or
`/^response\.body\.[^\s]*$/i`, together with the capture
`/^response\.body\.(.*)$/i` at line 161: the text typed after
`response.body.`, provided it holds no whitespace. -/
def matchBodyRem (pfx : String) : Option String :=
  match stripCI "response.body.".toList pfx.toList with
  | some rest => if rest.all (fun c => !isSpaceChar c) then some (String.mk rest) else none
  | none => none

/-- The `new Set(...)` iteration order: drop later duplicates, keep first
occurrences. -/
def dedupFirstAux (seen : List String) : List String → List String
  | [] => []
  | x :: rest =>
    if x ∈ seen then dedupFirstAux seen rest else x :: dedupFirstAux (x :: seen) rest

/-- Model of `Array.from(new Set(options))` at line 184. -/
def dedupFirst (options : List String) : List String := dedupFirstAux [] options

/-- The host language test `s.startsWith(p)`: a character-level prefix
test. -/
def jsStartsWith (s p : String) : Bool := p.toList.isPrefixOf s.toList

/-- The test `s.toLowerCase().startsWith(p.toLowerCase())`: the case-insensitive
prefix test used by the header and body filters. -/
def jsStartsWithCI (s p : String) : Bool :=
  (p.toList.map Char.toLower).isPrefixOf (s.toList.map Char.toLower)

/-- Build a suggestion whose range replaces the last `rem` characters
before the cursor (label and insert text coincide throughout the `@set`
branches). -/
def mkSetItem (cursor : Nat) (rem : String) (label : String) : CompletionItem :=
  ⟨label, label, cursor - rem.length, cursor⟩

/-- The `$.<key>` options pushed at lines 169-182: one per top-level key
when a cached response exists and its body parses as a JSON object that is
neither `null` nor an array; empty otherwise (including on parse error). -/
def bodyKeyOptions (cachedResponse : Option ModelResponse)
    (parseJson : String → Option JSValue) : List String :=
  match cachedResponse with
  | some resp =>
    match parseJson resp.body with
    | some (JSValue.obj fields) => fields.keys.map fun k => "$." ++ k
    | _ => []
  | none => []

/-- The source-path branch bodies of `provideSetCompletionItems`
(httpCompletionItemProvider.ts:91-205), given the captured partial source
path `pfx`.  `parseJson` models the host `JSON.parse`: `none` when the
text is not valid JSON.  Returns `none` exactly where the source returns
`undefined` (a header context with no cached response). -/
def provideSetSourceItems (cachedResponse : Option ModelResponse)
    (parseJson : String → Option JSValue) (pfx : String) (cursor : Nat) :
    Option (List CompletionItem) :=
  if pfx = "" || pfx = "response." then
    let options := if pfx = "response." then ["response.headers.", "response.body."]
      else ["response."]
    some (options.map (mkSetItem cursor pfx))
  else if isHeadersExact pfx then
    match cachedResponse with
    | none => none
    | some resp =>
      some (resp.headers.map fun hv => ⟨hv.1, hv.1, cursor, cursor⟩)
  else
    match matchHeadersRem pfx with
    | some hrem =>
      match cachedResponse with
      | none => none
      | some resp =>
        some ((resp.headers.filter fun hv => jsStartsWithCI hv.1 hrem).map
          fun hv => mkSetItem cursor hrem hv.1)
    | none =>
      match matchBodyRem pfx with
      | some brem =>
        some (((dedupFirst (["*", "$."] ++ bodyKeyOptions cachedResponse parseJson)).filter
          fun o => jsStartsWithCI o brem).map (mkSetItem cursor brem))
      | none =>
        some ((["response.headers.", "response.body."].filter
          fun o => jsStartsWith o pfx).map (mkSetItem cursor pfx))

/-- Model of `HttpCompletionItemProvider.provideSetCompletionItems`
(httpCompletionItemProvider.ts:63-208): take the line text before the
cursor, try the target context, then the source context, else return
`undefined`. -/
def provideSetCompletionItems (sharedNames : List String)
    (cachedResponse : Option ModelResponse) (parseJson : String → Option JSValue)
    (line : String) (cursor : Nat) : Option (List CompletionItem) :=
  let beforeCursor := line.toList.take cursor
  match matchSetTarget beforeCursor with
  | some pfx =>
    some ((sharedNames.filter fun n => jsStartsWith n pfx).map (mkSetItem cursor pfx))
  | none =>
    match matchSetSource beforeCursor with
    | some pfx => provideSetSourceItems cachedResponse parseJson pfx cursor
    | none => none

/-- What `provideCompletionItems` ends up returning: the `@set`-specific
items, `undefined` for a partial request-variable reference, or the
generic HTTP-element items. -/
inductive CompletionOutcome where
  | fromSet (items : List CompletionItem)
  | suppressed
  | fromGeneric (items : List CompletionItem)
deriving DecidableEq, Repr

/-- Model of `HttpCompletionItemProvider.provideCompletionItems`
(httpCompletionItemProvider.ts:22-61): if `provideSetCompletionItems`
returns an array — even an empty one, arrays being truthy — it is
returned; otherwise a partial request-variable reference suppresses
completion; otherwise the generic `HttpElementFactory` items are offered.
`isPartialReqVarRef` and `genericItems` stand for the two collaborators
outside the excerpt (`VariableUtility`, `HttpElementFactory`). -/
def provideCompletionItems (sharedNames : List String)
    (cachedResponse : Option ModelResponse) (parseJson : String → Option JSValue)
    (line : String) (cursor : Nat) (isPartialReqVarRef : Bool)
    (genericItems : List CompletionItem) : CompletionOutcome :=
  match provideSetCompletionItems sharedNames cachedResponse parseJson line cursor with
  | some items => .fromSet items
  | none =>
    if isPartialReqVarRef then .suppressed else .fromGeneric genericItems

/-! ## Object-identity model of the store cache

`getRuntimeSharedVariables` hands out `\x7b...m\x7d` copies.  To talk about
aliasing ("never returns the live cache object") the maps live on an
explicit heap: an object reference is an index into `heap`, each spread
copy allocates a fresh object, and a caller "mutating the returned map"
is a `writeRef` at the returned reference. -/

/-- The `UserDataManager` state with object identity: the heap of live map
objects, the cache as a reference into it (or `none` for `undefined`), and
the durable file contents (a pure value — the file is not an object a
caller could alias). -/
structure HeapStore where
  heap : List VarMap
  cacheRef : Option Nat
  file : VarMap
deriving Repr

/-- Allocate a fresh object holding `m`; returns its reference. -/
def allocRef (s : HeapStore) (m : VarMap) : Nat × HeapStore :=
  (s.heap.length, { s with heap := s.heap ++ [m] })

/-- The map currently held by the object `r` points to. -/
def readRef (s : HeapStore) (r : Nat) : VarMap := s.heap.getD r []

/-- Mutate the object `r` points to in place (what a caller does when it
writes into a returned map). -/
def writeRef (s : HeapStore) (r : Nat) (m : VarMap) : HeapStore :=
  { s with heap := s.heap.set r m }

/-- Model of `getRuntimeSharedVariables` on the heap model
(userDataManager.ts:108-120): with a cache, return a fresh spread copy of
it; without one, load the file, set the cache to a fresh copy, and return
another fresh copy. -/
def getRuntimeSharedVariablesH (s : HeapStore) : Nat × HeapStore :=
  match s.cacheRef with
  | some r => allocRef s (readRef s r)
  | none =>
    let a := allocRef s s.file
    let s1 := { a.2 with cacheRef := some a.1 }
    allocRef s1 s.file

/-- The map value the next `getRuntimeSharedVariables` call would return:
the cache contents when cached, else the file contents. -/
def nextReadValue (s : HeapStore) : VarMap :=
  match s.cacheRef with
  | some r => readRef s r
  | none => s.file

/-- The cache reference, when set, points into the heap. -/
def HeapWF (s : HeapStore) : Prop :=
  ∀ r, s.cacheRef = some r → r < s.heap.length

instance (s : HeapStore) : Decidable (HeapWF s) := by
  unfold HeapWF
  exact inferInstance

/-! ## Theorems -/

/-- C2 counterexample: `setRuntimeSharedVariables` assigns the cache before
the durable write; when the write fails the cache holds the new map, not
its pre-write value — refuting "if the durable write fails, the cache
still holds its pre-write value". -/
theorem failed_write_advances_cache :
    (setRuntimeSharedVariables ⟨some [("a", "1")], [("a", "1")]⟩ [("a", "2")] false).cache
      = some [("a", "2")] ∧
    (setRuntimeSharedVariables ⟨some [("a", "1")], [("a", "1")]⟩ [("a", "2")] false).cache
      ≠ some [("a", "1")] := by
  exact ⟨rfl, by decide⟩

/-- C2 (amended): for both `setRuntimeSharedVariables` and
`updateRuntimeSharedVariables` the in-memory cache is advanced to the new
map before the durable write is attempted, so a failed durable write
leaves the cache at the new (unpersisted) value while the file keeps its
pre-write contents; only on success does the file advance as well. -/
theorem cache_advances_before_durable_write (s : StoreState) (vars : VarMap)
    (updater : VarMap → VarMap) (ok : Bool) :
    (setRuntimeSharedVariables s vars ok).cache = some vars ∧
    (updateRuntimeSharedVariables s updater ok).cache = some (updater s.file) ∧
    (setRuntimeSharedVariables s vars false).file = s.file ∧
    (updateRuntimeSharedVariables s updater false).file = s.file ∧
    (setRuntimeSharedVariables s vars true).file = vars ∧
    (updateRuntimeSharedVariables s updater true).file = updater s.file :=
  ⟨rfl, rfl, rfl, rfl, rfl, rfl⟩

/-- C5: a capture cycle whose metadata yields zero `@set` directives
returns at requestController.ts:196 before any store access: no read, no
write, the store state untouched, and no warnings. -/
theorem applySetMetadata_no_directives_is_noop (shared : List String)
    (resolve : String → ResolveResult) (writeOk : Bool) (s : StoreState) :
    applySetMetadata [] shared resolve writeOk s = ⟨s, [], []⟩ :=
  rfl

/-- C6 counterexample: a resolved JSON object value is stored via
`String(value ?? '')` as `[object Object]`, not as its canonical JSON
text. -/
theorem stored_object_value_is_not_canonical_json :
    coerceSetValue (JSValue.obj (JSFields.cons "a" (JSValue.num 1) JSFields.nil))
      = "[object Object]" ∧
    canonicalJsonText (JSValue.obj (JSFields.cons "a" (JSValue.num 1) JSFields.nil))
      = "\x7b\"a\":1\x7d" ∧
    coerceSetValue (JSValue.obj (JSFields.cons "a" (JSValue.num 1) JSFields.nil)) ≠
      canonicalJsonText (JSValue.obj (JSFields.cons "a" (JSValue.num 1) JSFields.nil)) := by
  refine ⟨rfl, rfl, by decide⟩

/-- C6 (amended): a stored value is `String(value ?? '')` — `undefined` and
`null` become the empty string, strings are stored verbatim, booleans and
numbers as their literal text, but JSON objects become `[object Object]`
and arrays their elements' conversions joined with commas (`null` and
`undefined` elements rendering as empty), not canonical JSON text. -/
theorem coerceSetValue_characterization (s : String) (b : Bool) (n : Int)
    (fields : JSFields) (elems : JSList) (v : JSValue) (rest : JSList) :
    coerceSetValue JSValue.undef = "" ∧
    coerceSetValue JSValue.null = "" ∧
    coerceSetValue (JSValue.str s) = s ∧
    coerceSetValue (JSValue.bool b) = (if b then "true" else "false") ∧
    coerceSetValue (JSValue.num n) = toString n ∧
    coerceSetValue (JSValue.obj fields) = "[object Object]" ∧
    coerceSetValue (JSValue.arr elems) = jsArrayJoin elems ∧
    jsArrayJoin JSList.nil = "" ∧
    jsArrayJoin (JSList.cons v rest) = jsArrayElem v ++ jsArrayJoinRest rest ∧
    jsArrayJoinRest (JSList.cons v rest) = "," ++ jsArrayElem v ++ jsArrayJoinRest rest ∧
    jsArrayElem JSValue.undef = "" ∧
    jsArrayElem JSValue.null = "" := by
  refine ⟨rfl, rfl, rfl, ?_, rfl, rfl, rfl, rfl, ?_, ?_, rfl, rfl⟩
  · cases b <;> rfl
  · cases v <;> rfl
  · cases v <;> rfl

/-- Every queued call runs: the chain records one observed input per
call, whatever the write outcomes. -/
theorem observedInputs_length (s : StoreState) (calls : List UpdateCall) :
    (observedInputs s calls).length = calls.length := by
  induction calls generalizing s with
  | nil => rfl
  | cons c rest ih => simp [observedInputs, ih]

/-- The call at position `pre.length` of the chain observes exactly the
file contents left behind by executing the calls issued before it. -/
theorem observedInputs_get (s : StoreState) (pre : List UpdateCall) (c : UpdateCall)
    (post : List UpdateCall) :
    (observedInputs s (pre ++ c :: post)).get? pre.length = some (chainExec s pre).file := by
  induction pre generalizing s with
  | nil => rfl
  | cons p pre' ih =>
    simpa [observedInputs, chainExec] using ih (updateRuntimeSharedVariables s p.updater p.writeOk)

/-- When every durable write succeeds, the chain leaves the file equal to
the updaters folded over the initial contents, in issue order. -/
theorem chainExec_all_ok (s : StoreState) (calls : List UpdateCall)
    (hok : ∀ c ∈ calls, c.writeOk = true) :
    (chainExec s calls).file = calls.foldl (fun m c => c.updater m) s.file := by
  induction calls generalizing s with
  | nil => rfl
  | cons c rest ih =>
    have hc : c.writeOk = true := hok c (List.mem_cons_self c rest)
    have hrest : ∀ c' ∈ rest, c'.writeOk = true := fun c' h => hok c' (List.mem_cons_of_mem c h)
    simp only [chainExec, List.foldl_cons]
    rw [ih (updateRuntimeSharedVariables s c.updater c.writeOk) hrest]
    simp [updateRuntimeSharedVariables, hc]

/-- C3: `updateRuntimeSharedVariables` calls issued without awaiting one
another form a single totally ordered chain — every call runs exactly once
whatever the write outcomes (a failed write neither blocks nor drops
subsequent writers), each call's read-modify-write observes the durable
effect of exactly the calls issued strictly before it, and when all
durable writes succeed the final file equals the updaters applied once
each in call-issue order. -/
theorem update_chain_totally_ordered (s : StoreState) (calls : List UpdateCall) :
    (observedInputs s calls).length = calls.length ∧
    (∀ pre c post, calls = pre ++ c :: post →
      (observedInputs s calls).get? pre.length = some (chainExec s pre).file) ∧
    ((∀ c ∈ calls, c.writeOk = true) →
      (chainExec s calls).file = calls.foldl (fun m c => c.updater m) s.file) :=
  ⟨observedInputs_length s calls,
    fun pre c post h => h ▸ observedInputs_get s pre c post,
    chainExec_all_ok s calls⟩

/-- Two concrete calls queued back to back, for the chain witnesses. -/
def demoCallA : UpdateCall := ⟨fun m => setKey m "a" "1", true⟩

/-- Second concrete queued call. -/
def demoCallB : UpdateCall := ⟨fun m => setKey m "b" "2", true⟩

/-- C3 witness: two concrete unawaited calls — the second observes the
first's effect, and the final file is both updaters applied in issue
order. -/
theorem update_chain_totally_ordered_witness :
    (observedInputs ⟨none, []⟩ [demoCallA, demoCallB]).get? 1
      = some (chainExec ⟨none, []⟩ [demoCallA]).file ∧
    (chainExec ⟨none, []⟩ [demoCallA, demoCallB]).file = [("a", "1"), ("b", "2")] := by
  have h := update_chain_totally_ordered ⟨none, []⟩ [demoCallA, demoCallB]
  have hok : ∀ c ∈ [demoCallA, demoCallB], c.writeOk = true := by
    intro c hc
    rcases List.mem_cons.mp hc with h1 | hc
    · rw [h1]; rfl
    rcases List.mem_cons.mp hc with h2 | hc
    · rw [h2]; rfl
    · cases hc
  refine ⟨h.2.1 [demoCallA] demoCallB [] rfl, ?_⟩
  rw [h.2.2 hok]
  rfl

/-- Lookup via `getD` at the length of the left part of an append hits the appended
element. -/
theorem getD_append_length {α : Type} (l : List α) (x : α) (d : α) :
    (l ++ [x]).getD l.length d = x := by
  induction l with
  | nil => rfl
  | cons a l ih => simp only [List.cons_append, List.length_cons, List.getD_cons_succ, ih]

/-- Lookup via `getD` below the length of the left part of an append stays in it. -/
theorem getD_append_lt {α : Type} (l l₂ : List α) (n : Nat) (d : α) (h : n < l.length) :
    (l ++ l₂).getD n d = l.getD n d := by
  induction l generalizing n with
  | nil => cases h
  | cons a l ih =>
    cases n with
    | zero => rfl
    | succ n => simpa using ih n (Nat.lt_of_succ_lt_succ h)

/-- Setting one index leaves `getD` at any other index unchanged. -/
theorem getD_set_ne {α : Type} (l : List α) (i j : Nat) (x : α) (d : α) (h : i ≠ j) :
    (l.set i x).getD j d = l.getD j d := by
  induction l generalizing i j with
  | nil => rfl
  | cons a l ih =>
    cases i with
    | zero =>
      cases j with
      | zero => exact absurd rfl h
      | succ j => rfl
    | succ i =>
      cases j with
      | zero => rfl
      | succ j => simpa using ih i j (fun hh => h (by rw [hh]))

/-- C9: on the object heap, `getRuntimeSharedVariables` never returns the
live cache object; its returned object holds the value a read should see
(the cache contents, or — when the cache was absent — the file contents,
with the cache then populated); and mutating the returned object leaves
the value of every subsequent read unchanged. -/
theorem getRuntimeSharedVariables_returns_fresh_copy (s : HeapStore) (hwf : HeapWF s) :
    (getRuntimeSharedVariablesH s).2.cacheRef ≠ some (getRuntimeSharedVariablesH s).1 ∧
    readRef (getRuntimeSharedVariablesH s).2 (getRuntimeSharedVariablesH s).1
      = nextReadValue s ∧
    nextReadValue (getRuntimeSharedVariablesH s).2 = nextReadValue s ∧
    (s.cacheRef = none →
      (getRuntimeSharedVariablesH s).2.cacheRef.isSome = true ∧
      readRef (getRuntimeSharedVariablesH s).2 (getRuntimeSharedVariablesH s).1 = s.file) ∧
    (∀ m, nextReadValue
        (writeRef (getRuntimeSharedVariablesH s).2 (getRuntimeSharedVariablesH s).1 m)
      = nextReadValue (getRuntimeSharedVariablesH s).2) := by
  obtain ⟨heap, cref, file⟩ := s
  cases cref with
  | some r =>
    have hr : r < heap.length := hwf r rfl
    have hne : r ≠ heap.length := Nat.ne_of_lt hr
    refine ⟨?_, ?_, ?_, ?_, ?_⟩
    · simp only [getRuntimeSharedVariablesH, allocRef]
      intro hh
      exact hne (Option.some.inj hh)
    · simp only [getRuntimeSharedVariablesH, allocRef, readRef, nextReadValue]
      exact getD_append_length heap (readRef ⟨heap, some r, file⟩ r) []
    · simp only [getRuntimeSharedVariablesH, allocRef, readRef, nextReadValue]
      exact getD_append_lt heap [readRef ⟨heap, some r, file⟩ r] r [] hr
    · intro hnone; cases hnone
    · intro m
      simp only [getRuntimeSharedVariablesH, allocRef, readRef, nextReadValue, writeRef]
      exact getD_set_ne (heap ++ [readRef ⟨heap, some r, file⟩ r]) heap.length r m []
        (fun hh => hne hh.symm)
  | none =>
    refine ⟨?_, ?_, ?_, ?_, ?_⟩
    · simp only [getRuntimeSharedVariablesH, allocRef]
      intro hh
      have : heap.length = (heap ++ [file]).length := Option.some.inj hh
      simp at this
    · show readRef ⟨heap ++ [file] ++ [file], some heap.length, file⟩ (heap ++ [file]).length
        = nextReadValue ⟨heap, none, file⟩
      have h1 : (heap ++ [file] ++ [file]).getD (heap ++ [file]).length []
          = file := getD_append_length (heap ++ [file]) file []
      simpa [readRef, nextReadValue] using h1
    · have h2 : (heap ++ [file] ++ [file]).getD heap.length []
          = (heap ++ [file]).getD heap.length [] :=
        getD_append_lt (heap ++ [file]) [file] heap.length [] (by simp)
      have h3 : (heap ++ [file]).getD heap.length [] = file := getD_append_length heap file []
      show (heap ++ [file] ++ [file]).getD heap.length [] = file
      rw [h2, h3]
    · intro _
      constructor
      · rfl
      · show (heap ++ [file] ++ [file]).getD (heap ++ [file]).length [] = file
        exact getD_append_length (heap ++ [file]) file []
    · intro m
      show readRef (writeRef ⟨heap ++ [file] ++ [file], some heap.length, file⟩
          (heap ++ [file]).length m) heap.length
        = readRef ⟨heap ++ [file] ++ [file], some heap.length, file⟩ heap.length
      simp only [readRef, writeRef]
      exact getD_set_ne (heap ++ [file] ++ [file]) (heap ++ [file]).length heap.length m []
        (by simp)

/-- C9 witness: a concrete well-formed heap state — the returned reference
is not the cache reference, and writing through it leaves the next read's
value intact. -/
theorem getRuntimeSharedVariables_returns_fresh_copy_witness :
    HeapWF ⟨[[("a", "1")]], some 0, [("a", "1")]⟩ ∧
    (getRuntimeSharedVariablesH ⟨[[("a", "1")]], some 0, [("a", "1")]⟩).2.cacheRef ≠
      some (getRuntimeSharedVariablesH ⟨[[("a", "1")]], some 0, [("a", "1")]⟩).1 ∧
    nextReadValue (writeRef
        (getRuntimeSharedVariablesH ⟨[[("a", "1")]], some 0, [("a", "1")]⟩).2
        (getRuntimeSharedVariablesH ⟨[[("a", "1")]], some 0, [("a", "1")]⟩).1
        [("mutated", "x")])
      = nextReadValue (getRuntimeSharedVariablesH ⟨[[("a", "1")]], some 0, [("a", "1")]⟩).2 :=
  ⟨by decide,
    (getRuntimeSharedVariables_returns_fresh_copy _ (by decide)).1,
    (getRuntimeSharedVariables_returns_fresh_copy _ (by decide)).2.2.2.2 [("mutated", "x")]⟩

/-- C4: a parsed directive whose target is not a key of the predeclared
`$shared` set contributes nothing to the batch (the store is unchanged by
it), emits exactly one warning — whose text names the target — and
processing of the remaining directives of the batch continues
unaffected. -/
theorem denied_target_skipped_with_one_warning (shared : List String)
    (resolve : String → ResolveResult) (d : String) (rest : List String)
    (updates : VarMap) (a : SetAssignment)
    (hparse : parseSetAssignment d = some a) (hdenied : a.targetName ∉ shared) :
    processDirectives shared resolve (d :: rest) updates =
      ((processDirectives shared resolve rest updates).1,
        notPredeclaredMsg a.targetName :: (processDirectives shared resolve rest updates).2) ∧
    notPredeclaredMsg a.targetName =
      "@set target \"" ++ a.targetName ++
        "\" is not predeclared in $shared and will be ignored." := by
  constructor
  · simp only [processDirectives, hparse]
    rw [if_neg hdenied]
  · rfl

/-- The response-path resolver fixed for the demonstration inputs: it
resolves `response.body.$.id` to the string `42` and fails on every other
path. -/
def demoResolve : String → ResolveResult := fun p =>
  if p = "response.body.$.id" then .success (.str "42") else .failure "path segment not found"

/-- C4 witness: a concrete batch where `ghost` is not predeclared — the
denied directive adds no update, yields its single warning, and the later
directive in the batch still lands. -/
theorem denied_target_skipped_with_one_warning_witness :
    parseSetAssignment "ghost = response.body.$.missing"
      = some ⟨"ghost", "response.body.$.missing"⟩ ∧
    "ghost" ∉ ["lastId"] ∧
    processDirectives ["lastId"] demoResolve
        ["ghost = response.body.$.missing", "lastId = response.body.$.id"] [] =
      ([("lastId", "42")],
        ["@set target \"ghost\" is not predeclared in $shared and will be ignored."]) := by
  refine ⟨by decide, by decide, ?_⟩
  rw [(denied_target_skipped_with_one_warning ["lastId"] demoResolve
    "ghost = response.body.$.missing" ["lastId = response.body.$.id"] []
    ⟨"ghost", "response.body.$.missing"⟩ (by decide) (by decide)).1]
  decide

/-- C1 counterexample: a capture cycle with a non-empty accepted batch —
the store interaction is one read followed by one
`setRuntimeSharedVariables` (a replace of the full map), and no
`updateRuntimeSharedVariables` call is ever issued, refuting "issues
exactly one update call ... via the serialized read-modify-write
primitive". -/
theorem capture_cycle_issues_replace_not_update :
    (applySetMetadata ["lastId = response.body.$.id"] ["lastId"] demoResolve true
        ⟨none, []⟩).storeOps
      = [StoreOp.read, StoreOp.setVars [("lastId", "42")]] ∧
    StoreOp.updateVars ∉
      (applySetMetadata ["lastId = response.body.$.id"] ["lastId"] demoResolve true
        ⟨none, []⟩).storeOps := by
  exact ⟨by decide, by decide⟩

/-- C1 (amended): for every capture cycle whose accepted batch is
non-empty, the orchestrator issues exactly one `setRuntimeSharedVariables`
call — a replace whose argument is the batch spread-merged on top of the
snapshot read at the start of the cycle — after exactly one read, and
never calls the serialized read-modify-write primitive
`updateRuntimeSharedVariables`. -/
theorem capture_nonempty_batch_single_replace (directives shared : List String)
    (resolve : String → ResolveResult) (writeOk : Bool) (s : StoreState)
    (hne : directives ≠ [])
    (hbatch : (processDirectives shared resolve directives []).1 ≠ []) :
    (applySetMetadata directives shared resolve writeOk s).storeOps =
      [StoreOp.read,
        StoreOp.setVars (mergeMaps (getRuntimeSharedVariables s).1
          (processDirectives shared resolve directives []).1)] ∧
    StoreOp.updateVars ∉ (applySetMetadata directives shared resolve writeOk s).storeOps ∧
    (applySetMetadata directives shared resolve writeOk s).finalState =
      setRuntimeSharedVariables (getRuntimeSharedVariables s).2
        (mergeMaps (getRuntimeSharedVariables s).1
          (processDirectives shared resolve directives []).1) writeOk := by
  have h1 : directives.isEmpty = false := by
    cases directives with
    | nil => exact absurd rfl hne
    | cons d rest => rfl
  have h2 : (processDirectives shared resolve directives []).1.isEmpty = false := by
    cases hb : (processDirectives shared resolve directives []).1 with
    | nil => exact absurd hb hbatch
    | cons p rest => rfl
  refine ⟨?_, ?_, ?_⟩ <;>
    simp [applySetMetadata, h1, h2]

/-- C1 amended-claim witness: a concrete non-empty batch — the trace is
exactly one read then one replace of the merged map, with the final state
that replace produces. -/
theorem capture_nonempty_batch_single_replace_witness :
    ["lastId = response.body.$.id"] ≠ ([] : List String) ∧
    (processDirectives ["lastId"] demoResolve ["lastId = response.body.$.id"] []).1 ≠ [] ∧
    (applySetMetadata ["lastId = response.body.$.id"] ["lastId"] demoResolve true
        ⟨some [("token", "t")], [("token", "t")]⟩).finalState =
      ⟨some [("token", "t"), ("lastId", "42")], [("token", "t"), ("lastId", "42")]⟩ := by
  refine ⟨by decide, by decide, ?_⟩
  rw [(capture_nonempty_batch_single_replace ["lastId = response.body.$.id"] ["lastId"]
    demoResolve true ⟨some [("token", "t")], [("token", "t")]⟩ (by decide) (by decide)).2.2]
  decide

/-- C7: when the text before the cursor is `@set ` (on a metadata comment
line) followed by an optional partial identifier, the provider suggests
exactly the predeclared shared-variable names that start with the partial
identifier — a case-sensitive prefix match — and every suggestion inserts
the name over a range spanning exactly the partial identifier's
characters. -/
theorem setTarget_completions (sharedNames : List String)
    (cachedResponse : Option ModelResponse) (parseJson : String → Option JSValue)
    (line : String) (cursor : Nat) (pfx : String)
    (hmatch : matchSetTarget (line.toList.take cursor) = some pfx) :
    provideSetCompletionItems sharedNames cachedResponse parseJson line cursor =
      some ((sharedNames.filter fun n => jsStartsWith n pfx).map (mkSetItem cursor pfx)) ∧
    (∀ it ∈ (sharedNames.filter fun n => jsStartsWith n pfx).map (mkSetItem cursor pfx),
      it.label ∈ sharedNames ∧ jsStartsWith it.label pfx = true ∧
      it.insertText = it.label ∧
      it.replaceStart = cursor - pfx.length ∧ it.replaceEnd = cursor) ∧
    (∀ n ∈ sharedNames, jsStartsWith n pfx = true →
      mkSetItem cursor pfx n ∈
        (sharedNames.filter fun n => jsStartsWith n pfx).map (mkSetItem cursor pfx)) := by
  refine ⟨?_, ?_, ?_⟩
  · simp only [String.toList] at hmatch
    simp [provideSetCompletionItems, hmatch]
  · intro it hit
    obtain ⟨n, hn, rfl⟩ := List.mem_map.mp hit
    obtain ⟨hmem, hpref⟩ := List.mem_filter.mp hn
    exact ⟨hmem, hpref, rfl, rfl, rfl⟩
  · intro n hn hpref
    exact List.mem_map_of_mem _ (List.mem_filter.mpr ⟨hn, hpref⟩)

/-- C7 witness: cursor at the end of `# @set la` with predeclared names
`lastId` and `other` — exactly `lastId` is suggested, replacing the two
characters `la`. -/
theorem setTarget_completions_witness :
    matchSetTarget ("# @set la".toList.take 9) = some "la" ∧
    provideSetCompletionItems ["lastId", "other"] none (fun _ => none) "# @set la" 9 =
      some [⟨"lastId", "lastId", 7, 9⟩] := by
  refine ⟨by decide, ?_⟩
  rw [(setTarget_completions ["lastId", "other"] none (fun _ => none) "# @set la" 9 "la"
    (by decide)).1]
  decide

/-- Membership in the set-dedup worker: kept iff present in the input and
not already seen. -/
theorem mem_dedupFirstAux (seen l : List String) (x : String) :
    x ∈ dedupFirstAux seen l ↔ x ∈ l ∧ x ∉ seen := by
  induction l generalizing seen with
  | nil => simp [dedupFirstAux]
  | cons a rest ih =>
    by_cases ha : a ∈ seen
    · rw [dedupFirstAux, if_pos ha, ih seen]
      constructor
      · rintro ⟨hr, hs⟩
        exact ⟨List.mem_cons_of_mem a hr, hs⟩
      · rintro ⟨hm, hs⟩
        rcases List.mem_cons.mp hm with rfl | hr
        · exact absurd ha hs
        · exact ⟨hr, hs⟩
    · rw [dedupFirstAux, if_neg ha]
      constructor
      · intro hm
        rcases List.mem_cons.mp hm with rfl | hr
        · exact ⟨List.mem_cons_self _ _, ha⟩
        · obtain ⟨hrest, hns⟩ := (ih (a :: seen)).mp hr
          refine ⟨List.mem_cons_of_mem a hrest, fun hx => hns (List.mem_cons_of_mem a hx)⟩
      · rintro ⟨hm, hs⟩
        rcases List.mem_cons.mp hm with rfl | hr
        · exact List.mem_cons_self _ _
        · by_cases hxa : x = a
          · rw [hxa]; exact List.mem_cons_self _ _
          · refine List.mem_cons_of_mem _ ((ih (a :: seen)).mpr ⟨hr, ?_⟩)
            intro hx
            rcases List.mem_cons.mp hx with h | h
            · exact hxa h
            · exact hs h

/-- The set-dedup worker returns a duplicate-free list. -/
theorem nodup_dedupFirstAux (seen l : List String) :
    (dedupFirstAux seen l).Nodup := by
  induction l generalizing seen with
  | nil => exact List.nodup_nil
  | cons a rest ih =>
    by_cases ha : a ∈ seen
    · rw [dedupFirstAux, if_pos ha]
      exact ih seen
    · rw [dedupFirstAux, if_neg ha]
      refine List.nodup_cons.mpr ⟨?_, ih (a :: seen)⟩
      intro hmem
      exact ((mem_dedupFirstAux (a :: seen) rest a).mp hmem).2 (List.mem_cons_self a seen)

/-- Dedup via `Array.from(new Set(l))` keeps exactly the members of `l`. -/
theorem mem_dedupFirst (l : List String) (x : String) : x ∈ dedupFirst l ↔ x ∈ l := by
  simpa [dedupFirst] using mem_dedupFirstAux [] l x

/-- Dedup via `Array.from(new Set(l))` is duplicate-free. -/
theorem nodup_dedupFirst (l : List String) : (dedupFirst l).Nodup :=
  nodup_dedupFirstAux [] l

/-- C8: at a cursor after `@set <name> = response.body.` plus an optional
typed continuation, the provider suggests `*`, `$.`, and — when a cached
response exists whose body parses as a JSON object — `$.<key>` per
top-level key; the list is deduplicated, filtered case-insensitively by
the text typed after `response.body.`, and every suggestion replaces
exactly that typed text. -/
theorem setBodySource_completions (sharedNames : List String)
    (cachedResponse : Option ModelResponse) (parseJson : String → Option JSValue)
    (line : String) (cursor : Nat) (pfx brem : String)
    (htarget : matchSetTarget (line.toList.take cursor) = none)
    (hsource : matchSetSource (line.toList.take cursor) = some pfx)
    (hne : pfx ≠ "") (hnr : pfx ≠ "response.")
    (hhx : isHeadersExact pfx = false) (hhr : matchHeadersRem pfx = none)
    (hbody : matchBodyRem pfx = some brem) :
    provideSetCompletionItems sharedNames cachedResponse parseJson line cursor =
      some (((dedupFirst (["*", "$."] ++ bodyKeyOptions cachedResponse parseJson)).filter
        fun o => jsStartsWithCI o brem).map (mkSetItem cursor brem)) ∧
    (∀ o : String,
      mkSetItem cursor brem o ∈
        ((dedupFirst (["*", "$."] ++ bodyKeyOptions cachedResponse parseJson)).filter
          fun o => jsStartsWithCI o brem).map (mkSetItem cursor brem) ↔
      ((o = "*" ∨ o = "$." ∨ o ∈ bodyKeyOptions cachedResponse parseJson) ∧
        jsStartsWithCI o brem = true)) ∧
    ((((dedupFirst (["*", "$."] ++ bodyKeyOptions cachedResponse parseJson)).filter
        fun o => jsStartsWithCI o brem).map (mkSetItem cursor brem)).map
      CompletionItem.label).Nodup ∧
    (∀ it ∈ ((dedupFirst (["*", "$."] ++ bodyKeyOptions cachedResponse parseJson)).filter
        fun o => jsStartsWithCI o brem).map (mkSetItem cursor brem),
      it.insertText = it.label ∧ it.replaceStart = cursor - brem.length ∧
      it.replaceEnd = cursor) := by
  refine ⟨?_, ?_, ?_, ?_⟩
  · simp only [String.toList] at htarget hsource
    simp [provideSetCompletionItems, htarget, hsource, provideSetSourceItems,
      hne, hnr, hhx, hhr, hbody]
  · intro o
    constructor
    · intro hm
      obtain ⟨o', ho', heq⟩ := List.mem_map.mp hm
      have ho : o' = o := congrArg CompletionItem.label heq
      subst ho
      obtain ⟨hopt, hci⟩ := List.mem_filter.mp ho'
      have hmem := (mem_dedupFirst _ o').mp hopt
      rcases List.mem_append.mp hmem with hfixed | hkeys
      · rcases List.mem_cons.mp hfixed with rfl | hfixed
        · exact ⟨Or.inl rfl, hci⟩
        · rcases List.mem_cons.mp hfixed with rfl | hfixed
          · exact ⟨Or.inr (Or.inl rfl), hci⟩
          · cases hfixed
      · exact ⟨Or.inr (Or.inr hkeys), hci⟩
    · rintro ⟨hopt, hci⟩
      refine List.mem_map_of_mem _ (List.mem_filter.mpr ⟨(mem_dedupFirst _ o).mpr ?_, hci⟩)
      rcases hopt with rfl | rfl | hk
      · exact List.mem_append.mpr (Or.inl (List.mem_cons_self _ _))
      · exact List.mem_append.mpr
          (Or.inl (List.mem_cons_of_mem _ (List.mem_cons_self _ _)))
      · exact List.mem_append.mpr (Or.inr hk)
  · have hlab : ((((dedupFirst (["*", "$."] ++ bodyKeyOptions cachedResponse parseJson)).filter
        fun o => jsStartsWithCI o brem).map (mkSetItem cursor brem)).map
          CompletionItem.label)
        = ((dedupFirst (["*", "$."] ++ bodyKeyOptions cachedResponse parseJson)).filter
          fun o => jsStartsWithCI o brem) := by
      rw [List.map_map]
      exact List.map_id _
    rw [hlab]
    exact (nodup_dedupFirst _).filter _
  · intro it hit
    obtain ⟨o', _, rfl⟩ := List.mem_map.mp hit
    exact ⟨rfl, rfl, rfl⟩

/-- The JSON body of the demonstration response. -/
def demoBody : String := "\x7b\"id\":\"42\",\"name\":\"x\"\x7d"

/-- The host `JSON.parse` fixed for the demonstration inputs: it parses the
demonstration body into its two-field object and fails elsewhere. -/
def demoParseJson : String → Option JSValue := fun s =>
  if s = demoBody then
    some (JSValue.obj (JSFields.cons "id" (JSValue.str "42")
      (JSFields.cons "name" (JSValue.str "x") JSFields.nil)))
  else none

/-- The cached response for the demonstration request. -/
def demoResponse : ModelResponse := ⟨[("Content-Type", "application/json")], demoBody⟩

/-- C8 witness: cursor at the end of `# @set lastId = response.body.$.`
with a cached JSON-object response — the suggestions are exactly `$.`,
`$.id` and `$.name` (the `*` option is filtered out by the typed `$.`),
each replacing the two typed characters. -/
theorem setBodySource_completions_witness :
    matchSetSource ("# @set lastId = response.body.$.".toList.take 32)
      = some "response.body.$." ∧
    matchBodyRem "response.body.$." = some "$." ∧
    provideSetCompletionItems [] (some demoResponse) demoParseJson
        "# @set lastId = response.body.$." 32 =
      some [⟨"$.", "$.", 30, 32⟩, ⟨"$.id", "$.id", 30, 32⟩, ⟨"$.name", "$.name", 30, 32⟩] := by
  refine ⟨by decide, by decide, ?_⟩
  rw [(setBodySource_completions [] (some demoResponse) demoParseJson
    "# @set lastId = response.body.$." 32 "response.body.$." "$."
    (by decide) (by decide) (by decide) (by decide) (by decide) (by decide) (by decide)).1]
  decide

/-- A successful case-insensitive strip accounts for the whole input
length. -/
theorem stripCI_length (pat : List Char) : ∀ cs rest, stripCI pat cs = some rest →
    cs.length = pat.length + rest.length := by
  induction pat with
  | nil =>
    intro cs rest h
    rw [stripCI] at h
    cases h
    simp
  | cons p ps ih =>
    intro cs rest h
    cases cs with
    | nil => cases h
    | cons c cs' =>
      rw [stripCI] at h
      split at h
      · have := ih cs' rest h
        simp only [List.length_cons, this]
        omega
      · cases h

/-- C10 counterexample: the text before the cursor matches the `@set`
source context (`matchSetSource` succeeds), yet the provider answers with
the generic HTTP-element suggestions — the header branch found no cached
response, returned `undefined`, and the dispatch fell through — refuting
"the generic HTTP-element completion path is never consulted". -/
theorem matched_set_context_falls_through_to_generic :
    matchSetSource ("# @set a = response.headers.".toList.take 28)
      = some "response.headers." ∧
    provideCompletionItems [] none (fun _ => none) "# @set a = response.headers." 28 false
        [⟨"GET", "GET", 0, 0⟩]
      = CompletionOutcome.fromGeneric [⟨"GET", "GET", 0, 0⟩] := by
  exact ⟨by decide, by decide⟩

/-- C10 (amended): the dispatch is first-match-wins on the value of
`provideSetCompletionItems` — any produced array (even empty) is returned
as the `@set`-specific result and the generic path is skipped; but when it
produces `undefined` — either because no `@set` context matched, or
because a header-source context matched while no cached response exists —
the provider falls through to the request-variable check and then the
generic HTTP-element suggestions. -/
theorem set_dispatch_first_match (sharedNames : List String)
    (cachedResponse : Option ModelResponse) (parseJson : String → Option JSValue)
    (line : String) (cursor : Nat) (isPartialReqVarRef : Bool)
    (genericItems : List CompletionItem) :
    (∀ items,
      provideSetCompletionItems sharedNames cachedResponse parseJson line cursor
          = some items →
      provideCompletionItems sharedNames cachedResponse parseJson line cursor
          isPartialReqVarRef genericItems = CompletionOutcome.fromSet items) ∧
    (provideSetCompletionItems sharedNames cachedResponse parseJson line cursor = none →
      provideCompletionItems sharedNames cachedResponse parseJson line cursor
          isPartialReqVarRef genericItems =
        (if isPartialReqVarRef then CompletionOutcome.suppressed
          else CompletionOutcome.fromGeneric genericItems)) ∧
    (∀ pfx, matchSetTarget (line.toList.take cursor) = none →
      matchSetSource (line.toList.take cursor) = some pfx →
      isHeadersExact pfx = true → cachedResponse = none →
      provideCompletionItems sharedNames cachedResponse parseJson line cursor
          false genericItems = CompletionOutcome.fromGeneric genericItems) := by
  refine ⟨?_, ?_, ?_⟩
  · intro items hset
    simp [provideCompletionItems, hset]
  · intro hset
    simp [provideCompletionItems, hset]
  · intro pfx htarget hsource hhx hnone
    have hstrip : stripCI "response.headers.".toList pfx.toList = some [] := by
      simpa [isHeadersExact] using hhx
    have hlen : pfx.toList.length = 17 := by
      simpa using stripCI_length "response.headers.".toList pfx.toList [] hstrip
    have hne : pfx ≠ "" := by
      intro h
      rw [h] at hlen
      exact absurd hlen (by decide)
    have hnr : pfx ≠ "response." := by
      intro h
      rw [h] at hlen
      exact absurd hlen (by decide)
    subst hnone
    simp only [String.toList] at htarget hsource
    simp [provideCompletionItems, provideSetCompletionItems, htarget, hsource,
      provideSetSourceItems, hne, hnr, hhx]

/-- C10 amended-claim witness: a concrete header-source context with no
cached response — the dispatch hands the generic items back. -/
theorem set_dispatch_first_match_witness :
    matchSetTarget ("# @set a = response.headers.".toList.take 28) = none ∧
    matchSetSource ("# @set a = response.headers.".toList.take 28)
      = some "response.headers." ∧
    provideCompletionItems ["x"] none (fun _ => none) "# @set a = response.headers." 28
        false [⟨"POST", "POST", 0, 0⟩]
      = CompletionOutcome.fromGeneric [⟨"POST", "POST", 0, 0⟩] := by
  refine ⟨by decide, by decide, ?_⟩
  exact (set_dispatch_first_match ["x"] none (fun _ => none) "# @set a = response.headers."
    28 false [⟨"POST", "POST", 0, 0⟩]).2.2 "response.headers."
    (by decide) (by decide) (by decide) rfl

end RestClient
